import Mathlib

/-!
Verification development for the `routing` library (`src/lib/routing.py`), a
path-pattern router with reverse-URL generation for Kodi add-ons.

The embedding works on `List Char`. Route patterns are strings containing
placeholders `<name>`, `<string:name>` and `<path:name>`. The Python code
compiles a pattern with three `re.sub` passes into an anchored regular
expression whose only constructs are literal text, `(?P<name>[^/]+?)` (lazy,
one or more non-separator characters) and `(?P<name>.*)` (greedy, any
characters except newline). We embed the compiled regex as a token list
(`Tok`) and give it the backtracking semantics of the Python `re` engine for
this fragment: lazy groups try shorter captures first, greedy groups longer
ones, literal chunks match verbatim. Literal pattern text is NOT escaped by
the source, so the embedding is faithful for patterns whose literal text
contains no regex metacharacters; all concrete evaluations below stay in that
fragment.

Python-level conventions mirrored here:
* `None` results are `Option.none`;
* dictionaries are insertion-ordered association lists (CPython 3.7+);
* `str.format` is embedded for plain `{name}` fields (the only fields the
  compiler produces); `%`-interpolation is embedded for the `%s` directives
  the compiler inserts plus the `%%` escape, other directives map to `none`;
* the anchored matcher accepts a single trailing newline, as Python's `$`
  does;
* `int("")` raising `ValueError` is modelled by an explicit crash outcome,
  and the coercer is modelled on ASCII input (the source's
  `isdigit`/`int`/`float` are Unicode-aware).
-/

/-- Convert a string literal to the `List Char` the embedding works on. -/
def cl (s : String) : List Char := s.toList

/-- The Python regex class `[A-z]` (codes 65..122: letters, brackets,
backslash, caret, underscore, backquote) used by the pattern compiler for the
first character of a placeholder name. -/
def isAz (c : Char) : Bool := 65 ≤ c.toNat && c.toNat ≤ 122

/-- The Python regex class `[A-z0-9]` used for subsequent characters of a
placeholder name. -/
def isAz09 (c : Char) : Bool := isAz c || (48 ≤ c.toNat && c.toNat ≤ 57)

/-- Left-to-right span: the longest prefix whose characters satisfy `p`, and
the rest of the list. -/
def spanP (p : Char → Bool) : List Char → (List Char × List Char)
  | [] => ([], [])
  | c :: cs =>
    if p c then
      let r := spanP p cs
      (c :: r.1, r.2)
    else ([], c :: cs)

/-- Read a placeholder name `[A-z][A-z0-9]*` by maximal munch, returning the
name and the rest of the input. -/
def readIdent : List Char → Option (List Char × List Char)
  | [] => none
  | c :: cs =>
    if isAz c then
      let r := spanP isAz09 cs
      some (c :: r.1, r.2)
    else none

/-- Match the regex `<([A-z][A-z0-9]*)>` (a bare placeholder) at the head of
the input; on success return the name and the input after the `>`. -/
def tryBare : List Char → Option (List Char × List Char)
  | '<' :: cs =>
    match readIdent cs with
    | some (id, '>' :: rest) => some (id, rest)
    | _ => none
  | _ => none

/-- Match `<kind:name>` for a fixed literal `kind` at the head of the input. -/
def tryTyped (kind : List Char) (cs : List Char) : Option (List Char × List Char) :=
  if ('<' :: (kind ++ [':'])).isPrefixOf cs then
    match readIdent (cs.drop (kind.length + 2)) with
    | some (id, '>' :: rest) => some (id, rest)
    | _ => none
  else none

/-- Match the keyword regex `<(?:[^:]+:)?([A-z][A-z0-9]*)>` at the head of
the input, following the engine's preference: the optional `[^:]+:` prefix is
tried first (greedy up to the first `:`), then the bare form. -/
def tryKw : List Char → Option (List Char × List Char)
  | '<' :: cs =>
    match spanP (fun c => !(c == ':')) cs with
    | (pre, ':' :: cs2) =>
      if pre ≠ [] then
        match readIdent cs2 with
        | some (id, '>' :: rest) => some (id, rest)
        | _ =>
          match readIdent cs with
          | some (id, '>' :: rest) => some (id, rest)
          | _ => none
      else
        match readIdent cs with
        | some (id, '>' :: rest) => some (id, rest)
        | _ => none
    | _ =>
      match readIdent cs with
      | some (id, '>' :: rest) => some (id, rest)
      | _ => none
  | _ => none

/-- `UrlRule.__init__`: `self._has_args = bool(arg_regex.search(pattern))`
with `arg_regex = re.compile('<([A-z][A-z0-9]*)>')` — a scan of every
position for a bare placeholder.  Note it does NOT recognise the typed forms
`<string:name>` / `<path:name>`. -/
def hasArgs : List Char → Bool
  | [] => false
  | c :: cs => (tryBare (c :: cs)).isSome || hasArgs cs

/-- One token of the compiled matcher: literal text, a lazy non-separator
capture `(?P<n>[^/]+?)`, or a greedy capture `(?P<n>.*)`. -/
inductive Tok where
  | lit (s : List Char)
  | str (n : List Char)
  | path (n : List Char)
  deriving DecidableEq, Repr

/-- The pattern compiler: the fusion of the source's three substitutions
`<name>` → `<string:name>` → `(?P<name>[^/]+?)` and `<path:name>` →
`(?P<name>.*)` with the parse of the resulting regex.  Characters that are
not part of a recognised placeholder stay literal (the source never rejects
malformed placeholder syntax).  Fuel-driven so that it evaluates by kernel
reduction; each step consumes at least one character, so `cs.length` fuel is
always enough. -/
def compileTokensF : Nat → List Char → List Tok
  | _, [] => []
  | 0, _ => []
  | fuel + 1, c :: cs =>
    match tryBare (c :: cs) with
    | some (id, rest) => Tok.str id :: compileTokensF fuel rest
    | none =>
      match tryTyped (cl "string") (c :: cs) with
      | some (id, rest) => Tok.str id :: compileTokensF fuel rest
      | none =>
        match tryTyped (cl "path") (c :: cs) with
        | some (id, rest) => Tok.path id :: compileTokensF fuel rest
        | none => Tok.lit [c] :: compileTokensF fuel cs

def compileTokens (pattern : List Char) : List Tok :=
  compileTokensF pattern.length pattern

/-- `re.sub(kw_pattern, '{\\1}', pattern)`: the reverse template
`self._pattern`, with every keyword occurrence replaced by a brace field. -/
def kwSubF : Nat → List Char → List Char
  | _, [] => []
  | 0, cs => cs
  | fuel + 1, c :: cs =>
    match tryKw (c :: cs) with
    | some (id, rest) => '\x7b' :: id ++ '\x7d' :: kwSubF fuel rest
    | none => c :: kwSubF fuel cs

def kwSub (pattern : List Char) : List Char :=
  kwSubF pattern.length pattern

/-- `re.findall(kw_pattern, pattern)`: `self._keywords`, the declared
keywords in order of appearance. -/
def kwFindF : Nat → List Char → List (List Char)
  | _, [] => []
  | 0, _ => []
  | fuel + 1, c :: cs =>
    match tryKw (c :: cs) with
    | some (id, rest) => id :: kwFindF fuel rest
    | none => kwFindF fuel cs

def kwFind (pattern : List Char) : List (List Char) :=
  kwFindF pattern.length pattern

/-- Captures extracted by a successful regex match (`match.groupdict()`),
in group order. -/
abbrev Caps := List (List Char × List Char)

/-- Lazy matching of `(?P<n>[^/]+?)` followed by the continuation `k` (the
rest of the compiled pattern): the engine tries the shortest capture first
and extends one non-`/` character at a time.  `pre` is the part already
captured. -/
def lazyStr (n : List Char) (k : List Char → Option Caps) :
    List Char → List Char → Option Caps
  | _, [] => none
  | pre, c :: rest =>
    if c == '/' then none
    else
      match k rest with
      | some m => some ((n, pre ++ [c]) :: m)
      | none => lazyStr n k (pre ++ [c]) rest

/-- Greedy matching of `(?P<n>.*)` followed by the continuation `k`: the
engine tries the longest capture first and backtracks one character at a
time; `.` does not match a newline. -/
def greedyPath (n : List Char) (k : List Char → Option Caps) :
    List Char → List Char → Option Caps
  | pre, [] => (k []).map (fun m => (n, pre) :: m)
  | pre, c :: rest =>
    if c == '\n' then (k (c :: rest)).map (fun m => (n, pre) :: m)
    else
      match greedyPath n k (pre ++ [c]) rest with
      | some m => some m
      | none => (k (c :: rest)).map (fun m => (n, pre) :: m)

/-- Semantics of the compiled, fully anchored regex `'^' + p + '$'` applied
to a path: the backtracking search of the Python engine restricted to the
constructs the compiler emits.  Python's `$` (without `re.MULTILINE`)
matches at the end of the string and also just before a single trailing
newline, so the pattern accepts a remainder of `[]` or `['\n']`. -/
def matchTokens : List Tok → List Char → Option Caps
  | [], s => if s = [] ∨ s = ['\n'] then some [] else none
  | Tok.lit l :: ts, s =>
    if l.isPrefixOf s then matchTokens ts (s.drop l.length) else none
  | Tok.str n :: ts, s => lazyStr n (matchTokens ts) [] s
  | Tok.path n :: ts, s => greedyPath n (matchTokens ts) [] s

/-- The compiled state of `UrlRule.__init__`: `_has_args`, the reverse
template `_pattern`, the declared keywords `_keywords`, and the compiled
matcher `_regex` as a token list. -/
structure UrlRule where
  _has_args : Bool
  _pattern : List Char
  _keywords : List (List Char)
  _tokens : List Tok
  deriving DecidableEq, Repr

/-- `UrlRule(pattern)`. -/
def UrlRule.ofPattern (pattern : List Char) : UrlRule :=
  ⟨hasArgs pattern, kwSub pattern, kwFind pattern, compileTokens pattern⟩

/-- `UrlRule.match`: apply the anchored matcher, returning the captured
group dictionary (possibly empty) on success and `None` otherwise. -/
def UrlRule.match_ (r : UrlRule) (path : List Char) : Option Caps :=
  matchTokens r._tokens path

/-- `UrlRule.exact_match`: `not self._has_args and self._pattern == path`. -/
def UrlRule.exact_match (r : UrlRule) (path : List Char) : Bool :=
  !r._has_args && r._pattern == path

/-- Association-list lookup by key (Python dictionary access), first match
wins. -/
def lookupA (k : List Char) : Caps → Option (List Char)
  | [] => none
  | (k2, v) :: t => if k2 = k then some v else lookupA k t

/-- Membership of a keyword in the declared-keyword list (`k in
self._keywords`). -/
def memA (k : List Char) : List (List Char) → Bool
  | [] => false
  | k2 :: t => if k2 = k then true else memA k t

/-- `re.sub(r'{[A-z][A-z0-9]*}', r'%s', template)`: replace every brace field
whose name is a simple identifier by the `%s` directive.  Fuel counts `{`
characters, so `template.length` is always enough. -/
def braceSubF : Nat → List Char → List Char
  | 0, cs => cs
  | fuel + 1, cs =>
    match spanP (fun c => !(c == '\x7b')) cs with
    | (pre, []) => pre
    | (pre, _ :: cs2) =>
      match readIdent cs2 with
      | some (_, rest) =>
        match rest with
        | c3 :: cs3 =>
          if c3 = '\x7d' then pre ++ '%' :: 's' :: braceSubF fuel cs3
          else pre ++ '\x7b' :: braceSubF fuel cs2
        | [] => pre ++ '\x7b' :: braceSubF fuel cs2
      | none => pre ++ '\x7b' :: braceSubF fuel cs2

def braceSub (template : List Char) : List Char :=
  braceSubF template.length template

/-- Python `%`-interpolation `template % args` restricted to the directives
reachable from the compiler: `%s` consumes the next argument, `%%` is a
literal percent.  A `TypeError` (argument count mismatch, caught by
`make_path`) is `none`.  Other directives behave differently in Python
(`%c`/`%r` succeed on string arguments, invalid ones raise an uncaught
`ValueError`); they are out of the modelled fragment, map to `none` here,
and every theorem about the positional branch carries a no-`%` hypothesis
that keeps them unreachable. -/
def interpolate : List Char → List (List Char) → Option (List Char)
  | [], args => if args.isEmpty then some [] else none
  | c :: t, args =>
    if c = '%' then
      match t with
      | c2 :: t2 =>
        if c2 = 's' then
          match args with
          | a :: args2 => (interpolate t2 args2).map (fun r => a ++ r)
          | [] => none
        else if c2 = '%' then (interpolate t2 args).map (fun r => '%' :: r)
        else none
      | [] => none
    else (interpolate t args).map (fun r => c :: r)

/-- Characters that are plain text for `str.format` (neither brace). -/
def notBrace (c : Char) : Bool := !(c == '\x7b' || c == '\x7d')

/-- `template.format(**mapping)` for the field shapes the router produces:
plain text, `{{` and `}}` escapes, and `{field}` fields looked up as plain
keys.  A missing key (`KeyError`, caught by `make_path`) is `none`.
Malformed templates (a stray brace, or a field such as `{0}` that is not a
plain key) raise `ValueError`/`IndexError` in Python, which `make_path`'s
`except KeyError` does not catch; they are out of the modelled fragment,
map to `none` here, and every theorem about the named branch carries a
well-formed-template hypothesis (`templateFields`) that keeps them
unreachable.  Fuel counts brace groups, so `template.length` is always
enough. -/
def formatFieldsF (M : Caps) : Nat → List Char → Option (List Char)
  | 0, cs =>
    match spanP notBrace cs with
    | (pre, []) => some pre
    | _ => none
  | fuel + 1, cs =>
    match spanP notBrace cs with
    | (pre, []) => some pre
    | (pre, b :: cs2) =>
      if b = '\x7b' then
        match cs2 with
        | c2 :: cs3 =>
          if c2 = '\x7b' then
            (formatFieldsF M fuel cs3).map (fun t => pre ++ '\x7b' :: t)
          else
            match spanP (fun c => !(c == '\x7d')) cs2 with
            | (field, d :: cs4) =>
              if d = '\x7d' then
                match lookupA field M with
                | some v => (formatFieldsF M fuel cs4).map (fun t => pre ++ v ++ t)
                | none => none
              else none
            | (_, []) => none
        | [] => none
      else
        match cs2 with
        | c2 :: cs3 =>
          if c2 = '\x7d' then
            (formatFieldsF M fuel cs3).map (fun t => pre ++ '\x7d' :: t)
          else none
        | [] => none

def formatFields (M : Caps) (template : List Char) : Option (List Char) :=
  formatFieldsF M template.length template

/-- UTF-8 encoding of one character, as byte values. -/
def utf8Bytes (c : Char) : List Nat :=
  let n := c.toNat
  if n < 128 then [n]
  else if n < 2048 then [192 + n / 64, 128 + n % 64]
  else if n < 65536 then [224 + n / 4096, 128 + (n / 64) % 64, 128 + n % 64]
  else [240 + n / 262144, 128 + (n / 4096) % 64, 128 + (n / 64) % 64, 128 + n % 64]

/-- Uppercase hexadecimal digit. -/
def hexChar (n : Nat) : Char :=
  if n < 10 then Char.ofNat (48 + n) else Char.ofNat (55 + n)

/-- Percent-encoding of one byte, `%XX` with uppercase hex digits. -/
def pctByte (b : Nat) : List Char :=
  ['%', hexChar (b / 16), hexChar (b % 16)]

/-- Characters `urllib.parse.quote_plus` never encodes: ASCII alphanumerics
and `_.-~`. -/
def safeQP (c : Char) : Bool :=
  c.isAlphanum || c == '_' || c == '.' || c == '-' || c == '~'

/-- `urllib.parse.quote_plus`: spaces become `+`, safe characters stay, all
others are percent-encoded byte by byte (UTF-8). -/
def quotePlus (s : List Char) : List Char :=
  s.flatMap (fun c =>
    if c == ' ' then ['+']
    else if safeQP c then [c]
    else (utf8Bytes c).flatMap pctByte)

/-- `&`-join of encoded query pairs. -/
def interAmp : List (List Char) → List Char
  | [] => []
  | [x] => x
  | x :: y :: t => x ++ '&' :: interAmp (y :: t)

/-- `urllib.parse.urlencode(mapping)`, items in insertion order. -/
def urlencode (kvs : Caps) : List Char :=
  interAmp (kvs.map (fun kv => quotePlus kv.1 ++ '=' :: quotePlus kv.2))

/-- `UrlRule.make_path(*args, **kwargs)`.  `None` (the `BuildError` outcome
swallowed by `url_for`) is `none`.  Argument values are strings, matching
`%s` / `format` substitution of already-stringified values. -/
def UrlRule.make_path (r : UrlRule) (args : List (List Char)) (kwargs : Caps) :
    Option (List Char) :=
  if args ≠ [] ∧ kwargs ≠ [] then none
  else if args ≠ [] then interpolate (braceSub r._pattern) args
  else
    let url_kwargs := kwargs.filter (fun kv => memA kv.1 r._keywords)
    let qs_kwargs := kwargs.filter (fun kv => !(memA kv.1 r._keywords))
    let query := if qs_kwargs.isEmpty then [] else '?' :: urlencode qs_kwargs
    (formatFields url_kwargs r._pattern).map (fun p => p ++ query)

/-- Python float special values: the float parse can yield a finite value
(kept exact as a rational here), an infinity, or a NaN. -/
inductive PyFloat where
  | finite (q : ℚ)
  | inf (neg : Bool)
  | nan
  deriving DecidableEq, Repr

/-- A value produced by `try_convert`: `int`, `float` or `bool`. -/
inductive PyVal where
  | int (n : ℤ)
  | flt (f : PyFloat)
  | bool (b : Bool)
  deriving DecidableEq, Repr

/-- Python truthiness of a converted value (`if new_val:` in `_dispatch`). -/
def truthy : PyVal → Bool
  | .int n => n ≠ 0
  | .flt (.finite q) => q ≠ 0
  | .flt (.inf _) => true
  | .flt .nan => true
  | .bool b => b

/-- Whitespace stripped by Python's `float()` (ASCII fragment). -/
def isPySpace (c : Char) : Bool :=
  c == ' ' || c == '\t' || c == '\n' || c == '\x0d' || c == '\x0c' || c == '\x0b'

/-- A run of decimal digits with single underscores allowed between digits
(Python numeric literals accepted by `float()`), by maximal munch; returns
the accumulated value, the digit count and the rest. -/
def digitsGo : Nat → Nat → List Char → (Nat × Nat × List Char)
  | acc, cnt, [] => (acc, cnt, [])
  | acc, cnt, c :: cs =>
    if c.isDigit then digitsGo (acc * 10 + (c.toNat - 48)) (cnt + 1) cs
    else if c == '_' then
      match cs with
      | d :: cs2 =>
        if d.isDigit then digitsGo (acc * 10 + (d.toNat - 48)) (cnt + 1) cs2
        else (acc, cnt, c :: cs)
      | [] => (acc, cnt, c :: cs)
    else (acc, cnt, c :: cs)

/-- One digit-part of a float literal: at least one digit required. -/
def parseDigitpart (s : List Char) : Option (Nat × Nat × List Char) :=
  match s with
  | c :: cs => if c.isDigit then some (digitsGo (c.toNat - 48) 1 cs) else none
  | [] => none

/-- An optional sign; returns `true` for `-`. -/
def parseSign : List Char → (Bool × List Char)
  | '+' :: cs => (false, cs)
  | '-' :: cs => (true, cs)
  | cs => (false, cs)

/-- Mantissa of a float literal: `digits [. digits]`, `digits .`, or
`. digits`; returns the value and the rest. -/
def parseMantissa (s : List Char) : Option (ℚ × List Char) :=
  match parseDigitpart s with
  | some (iv, _, r1) =>
    match r1 with
    | '.' :: r2 =>
      match parseDigitpart r2 with
      | some (fv, fd, r3) => some ((iv : ℚ) + (fv : ℚ) / ((10 : ℚ) ^ fd), r3)
      | none => some ((iv : ℚ), r2)
    | _ => some ((iv : ℚ), r1)
  | none =>
    match s with
    | '.' :: r2 =>
      match parseDigitpart r2 with
      | some (fv, fd, r3) => some ((fv : ℚ) / ((10 : ℚ) ^ fd), r3)
      | none => none
    | _ => none

/-- Optional exponent `e`/`E` `[sign]` `digits`; fails only when an `e` is
present without digits; returns the exponent and the rest. -/
def parseExp (s : List Char) : Option (ℤ × List Char) :=
  match s with
  | c :: cs =>
    if c == 'e' || c == 'E' then
      let sg := parseSign cs
      match parseDigitpart sg.2 with
      | some (ev, _, r) => some (if sg.1 then -(ev : ℤ) else (ev : ℤ), r)
      | none => none
    else some (0, s)
  | [] => some (0, [])

/-- Case-insensitive keyword at the head of the input. -/
def kwAt (kw : List Char) (s : List Char) : Option (List Char) :=
  if (s.take kw.length).map Char.toLower = kw then some (s.drop kw.length) else none

/-- Python's `float(value)`: optional whitespace and sign, then `inf`,
`infinity`, `nan` (case-insensitive) or a decimal literal with optional
fraction, exponent and digit-group underscores, then optional whitespace.
`none` is a `ValueError` (caught by `try_convert`'s bare `except`). -/
def pyFloat (s : List Char) : Option PyFloat :=
  let s1 := (s.dropWhile isPySpace)
  let sg := parseSign s1
  match kwAt (cl "infinity") sg.2 with
  | some r => if r.all isPySpace then some (.inf sg.1) else none
  | none =>
  match kwAt (cl "inf") sg.2 with
  | some r => if r.all isPySpace then some (.inf sg.1) else none
  | none =>
  match kwAt (cl "nan") sg.2 with
  | some r => if r.all isPySpace then some .nan else none
  | none =>
  match parseMantissa sg.2 with
  | some (m, r1) =>
    match parseExp r1 with
    | some (e, r2) =>
      if r2.all isPySpace then
        some (.finite ((if sg.1 then -m else m) * (10 : ℚ) ^ e))
      else none
    | none => none
  | none => none

/-- Value of an all-digit string under `int()`. -/
def digitsVal (s : List Char) : Nat :=
  s.foldl (fun a c => a * 10 + (c.toNat - 48)) 0

/-- Outcome of `try_convert`: a converted value, `None` (no conversion), or
an uncaught `ValueError` (`int("")` on the empty string, whose characters
are vacuously all digits). -/
inductive TCRes where
  | crash
  | val (v : PyVal)
  | noconv
  deriving DecidableEq, Repr

/-- `try_convert(value)` from the source: all-digit strings become `int`
(the empty string crashes in `int("")`); otherwise a successful `float()`
parse wins; otherwise case-insensitive `"true"`/`"false"` become booleans;
otherwise `None`.  The source's `str.isdigit`, `int` and `float` are
Unicode-aware (`'٢'.isdigit()` holds and `int('٢')` is 2, while
`int('²')` raises); this embedding models their common ASCII fragment, and
theorems about `try_convert` carry an all-ASCII hypothesis. -/
def try_convert (s : List Char) : TCRes :=
  if s.all Char.isDigit then
    if s.isEmpty then .crash else .val (.int (digitsVal s))
  else
    match pyFloat s with
    | some f => .val (.flt f)
    | none =>
      if s.map Char.toLower = cl "true" then .val (.bool true)
      else if s.map Char.toLower = cl "false" then .val (.bool false)
      else .noconv

/-- The route table: `self._rules`, a dictionary mapping a view function
(modelled as a numeric handler identifier) to its list of rules — an
insertion-ordered association list, as in CPython 3.7+. -/
abbrev RuleTable := List (Nat × List UrlRule)

/-- Dictionary lookup `self._rules[func]` guarded by `func in self._rules`. -/
def lookupR (f : Nat) : RuleTable → Option (List UrlRule)
  | [] => none
  | (f2, rs) :: t => if f2 = f then some rs else lookupR f t

/-- `Addon.add_route`: create the key with an empty list when absent (a new
key goes to the end of the dictionary), then append the rule. -/
def add_route (t : RuleTable) (f : Nat) (r : UrlRule) : RuleTable :=
  if (lookupR f t).isSome then
    t.map (fun g => if g.1 = f then (g.1, g.2 ++ [r]) else g)
  else t ++ [(f, [r])]

/-- The router state: `base_url`, `convert_args` and the route table.
`args` (the parsed query string) plays no part in the claims and is
omitted. -/
structure Addon where
  base_url : List Char
  convert_args : Bool
  rules : RuleTable

/-- An `Addon` built by a sequence of `add_route` registrations. -/
def mkAddon (base : List Char) (conv : Bool) (regs : List (Nat × List Char)) : Addon :=
  ⟨base, conv,
   regs.foldl (fun t fp => add_route t fp.1 (UrlRule.ofPattern fp.2)) []⟩

/-- The base-prefix stripping at the head of `route_for`:
`path.split(self.base_url, 1)[1]` when `path.startswith(self.base_url)`.
For a nonempty base this removes the leading occurrence; the Python code
raises `ValueError` on an empty separator, so theorems that involve the
stripping assume `base ≠ []`. -/
def stripBase (base path : List Char) : List Char :=
  if base.isPrefixOf path then path.drop base.length else path

/-- The exact pass: the first handler (in dictionary order) one of whose
rules exact-matches the path. -/
def findExact : RuleTable → List Char → Option Nat
  | [], _ => none
  | (f, rs) :: t, p =>
    if rs.any (fun r => r.exact_match p) then some f else findExact t p

/-- The regex pass as `route_for` performs it: the first handler one of
whose rules matches (`rule.match(path) is not None`). -/
def findRegex : RuleTable → List Char → Option Nat
  | [], _ => none
  | (f, rs) :: t, p =>
    if rs.any (fun r => (r.match_ p).isSome) then some f else findRegex t p

/-- First `some` result of `g` along a list (the `for` loops that return on
the first hit). -/
def firstSome {α β : Type} (g : α → Option β) : List α → Option β
  | [] => none
  | x :: t =>
    match g x with
    | some b => some b
    | none => firstSome g t

/-- The regex pass as `_dispatch` performs it: the first handler together
with the captures of its first matching rule. -/
def findRegexCaps : RuleTable → List Char → Option (Nat × Caps)
  | [], _ => none
  | (f, rs) :: t, p =>
    match firstSome (fun r => r.match_ p) rs with
    | some m => some (f, m)
    | none => findRegexCaps t p

/-- `Addon.route_for(path)`: strip the base prefix, then the exact pass over
the whole table, then the regex pass, else `None`. -/
def Addon.route_for (a : Addon) (path : List Char) : Option Nat :=
  let p := stripBase a.base_url path
  match findExact a.rules p with
  | some f => some f
  | none => findRegex a.rules p

/-- `Addon.url_for_path(path)`: `base_url + path`, prefixing a `/` when the
path lacks one. -/
def Addon.url_for_path (a : Addon) (p : List Char) : List Char :=
  a.base_url ++ (match p with
    | '/' :: _ => p
    | _ => '/' :: p)

/-- The payload of the `RoutingError` raised by `url_for`: the handler and
the supplied positional and named arguments. -/
structure RErrInfo where
  func : Nat
  args : List (List Char)
  kwargs : Caps
  deriving DecidableEq, Repr

/-- `Addon.url_for(func, *args, **kwargs)`: try `make_path` on the rules
registered for `func` in order, return the first non-`None` path through
`url_for_path`, else raise `RoutingError` with the diagnostics payload. -/
def Addon.url_for (a : Addon) (f : Nat) (args : List (List Char)) (kwargs : Caps) :
    Except RErrInfo (List Char) :=
  match lookupR f a.rules with
  | some rs =>
    match firstSome (fun r => r.make_path args kwargs) rs with
    | some p => .ok (a.url_for_path p)
    | none => .error ⟨f, args, kwargs⟩
  | none => .error ⟨f, args, kwargs⟩

/-- An argument handed to a view function by `_dispatch`: either the capture
string unchanged or a converted value. -/
inductive AVal where
  | s (v : List Char)
  | v (x : PyVal)
  deriving DecidableEq, Repr

/-- Outcome of `Addon._dispatch(path)`: a handler invocation (with `none`
for a no-argument exact-match call), a `RoutingError`, or an uncaught
`ValueError` from `try_convert`. -/
inductive DispatchOutcome where
  | invoked (f : Nat) (args : Option (List (List Char × AVal)))
  | routingError
  | crash
  deriving DecidableEq, Repr

/-- One step of the conversion loop in `_dispatch`: `new_val =
try_convert(v); if new_val: kwargs[k] = new_val` — the capture is replaced
only by a truthy conversion. -/
def convertVal (v : List Char) : Except Unit AVal :=
  match try_convert v with
  | .crash => .error ()
  | .val x => .ok (if truthy x then .v x else .s v)
  | .noconv => .ok (.s v)

/-- The whole conversion loop over the capture dictionary. -/
def convertKwargs : Caps → Except Unit (List (List Char × AVal))
  | [] => .ok []
  | (k, v) :: t =>
    match convertVal v, convertKwargs t with
    | .ok a, .ok t2 => .ok ((k, a) :: t2)
    | _, _ => .error ()

/-- Captures passed through unchanged when `convert_args` is off. -/
def rawKwargs (m : Caps) : List (List Char × AVal) :=
  m.map (fun kv => (kv.1, .s kv.2))

/-- `Addon._dispatch(path)`: exact pass (invoke with no arguments), then
regex pass (invoke with the captures, converted when `convert_args` is set),
else `RoutingError`.  Note: unlike `route_for`, no base-prefix stripping
happens here. -/
def Addon._dispatch (a : Addon) (path : List Char) : DispatchOutcome :=
  match findExact a.rules path with
  | some f => .invoked f none
  | none =>
    match findRegexCaps a.rules path with
    | some (f, m) =>
      if a.convert_args then
        match convertKwargs m with
        | .ok args => .invoked f (some args)
        | .error _ => .crash
      else .invoked f (some (rawKwargs m))
    | none => .routingError

/-! ## Claim-side definitions

These formalise the wording of the specification where it differs from the
source structure, to be compared with the source embedding above. -/

/-- Claimed (C1) flat scan: every `(handler, rule)` registration in
registration order, exact pass then regex pass.  `regs` is the sequence of
`add_route` calls. -/
def flatExact (regs : List (Nat × List Char)) (p : List Char) : Option Nat :=
  firstSome (fun fp =>
    if (UrlRule.ofPattern fp.2).exact_match p then some fp.1 else none) regs

/-- Claimed (C1) flat regex pass. -/
def flatRegex (regs : List (Nat × List Char)) (p : List Char) : Option Nat :=
  firstSome (fun fp =>
    if ((UrlRule.ofPattern fp.2).match_ p).isSome then some fp.1 else none) regs

/-- Claimed (C1) `routeFor`: base-prefix strip, then both flat passes over
the full table in registration order. -/
def flatRouteFor (base : List Char) (regs : List (Nat × List Char))
    (path : List Char) : Option Nat :=
  let p := stripBase base path
  match flatExact regs p with
  | some f => some f
  | none => flatRegex regs p

theorem firstSome_eq_none {α β : Type} (g : α → Option β) (l : List α)
    (h : ∀ x ∈ l, g x = none) : firstSome g l = none := by
  induction l with
  | nil => rfl
  | cons x t ih =>
    have hx := h x (by simp)
    simp [firstSome, hx, ih (fun y hy => h y (by simp [hy]))]

theorem firstSome_eq_some {α β : Type} (g : α → Option β) (l : List α)
    (i : Nat) (h : i < l.length) (b : β) (hi : g (l.get ⟨i, h⟩) = some b)
    (hj : ∀ j, ∀ hj : j < i, g (l.get ⟨j, Nat.lt_trans hj h⟩) = none) :
    firstSome g l = some b := by
  induction l generalizing i with
  | nil => exact absurd h (Nat.not_lt_zero i)
  | cons x t ih =>
    cases i with
    | zero =>
      simp only [List.get] at hi
      simp [firstSome, hi]
    | succ i2 =>
      have hx : g x = none := hj 0 (Nat.succ_pos i2)
      have h2 : i2 < t.length := Nat.lt_of_succ_lt_succ h
      simp only [firstSome, hx]
      exact ih i2 h2 hi (fun j hjj => hj (j + 1) (Nat.succ_lt_succ hjj))

theorem findExact_eq_some (t : RuleTable) (p : List Char) (i : Nat)
    (h : i < t.length)
    (hi : (t.get ⟨i, h⟩).2.any (fun r => r.exact_match p) = true)
    (hj : ∀ j, ∀ hjj : j < i,
      (t.get ⟨j, Nat.lt_trans hjj h⟩).2.any (fun r => r.exact_match p) = false) :
    findExact t p = some (t.get ⟨i, h⟩).1 := by
  induction t generalizing i with
  | nil => exact absurd h (Nat.not_lt_zero i)
  | cons g t2 ih =>
    cases i with
    | zero =>
      simp only [List.get] at hi ⊢
      obtain ⟨f, rs⟩ := g
      simp [findExact, hi]
    | succ i2 =>
      have hx : g.2.any (fun r => r.exact_match p) = false := hj 0 (Nat.succ_pos i2)
      have h2 : i2 < t2.length := Nat.lt_of_succ_lt_succ h
      obtain ⟨f, rs⟩ := g
      simp only at hx
      simp only [findExact, hx, Bool.false_eq_true, if_false]
      exact ih i2 h2 hi (fun j hjj => hj (j + 1) (Nat.succ_lt_succ hjj))

theorem findExact_eq_none (t : RuleTable) (p : List Char)
    (h : ∀ g ∈ t, g.2.any (fun r => r.exact_match p) = false) :
    findExact t p = none := by
  induction t with
  | nil => rfl
  | cons g t2 ih =>
    obtain ⟨f, rs⟩ := g
    have hx := h (f, rs) (by simp)
    simp only at hx
    simp [findExact, hx, ih (fun y hy => h y (by simp [hy]))]

theorem findRegex_eq_some (t : RuleTable) (p : List Char) (i : Nat)
    (h : i < t.length)
    (hi : (t.get ⟨i, h⟩).2.any (fun r => (r.match_ p).isSome) = true)
    (hj : ∀ j, ∀ hjj : j < i,
      (t.get ⟨j, Nat.lt_trans hjj h⟩).2.any (fun r => (r.match_ p).isSome) = false) :
    findRegex t p = some (t.get ⟨i, h⟩).1 := by
  induction t generalizing i with
  | nil => exact absurd h (Nat.not_lt_zero i)
  | cons g t2 ih =>
    cases i with
    | zero =>
      simp only [List.get] at hi ⊢
      obtain ⟨f, rs⟩ := g
      simp [findRegex, hi]
    | succ i2 =>
      have hx : g.2.any (fun r => (r.match_ p).isSome) = false := hj 0 (Nat.succ_pos i2)
      have h2 : i2 < t2.length := Nat.lt_of_succ_lt_succ h
      obtain ⟨f, rs⟩ := g
      simp only at hx
      simp only [findRegex, hx, Bool.false_eq_true, if_false]
      exact ih i2 h2 hi (fun j hjj => hj (j + 1) (Nat.succ_lt_succ hjj))

theorem findRegex_eq_none (t : RuleTable) (p : List Char)
    (h : ∀ g ∈ t, g.2.any (fun r => (r.match_ p).isSome) = false) :
    findRegex t p = none := by
  induction t with
  | nil => rfl
  | cons g t2 ih =>
    obtain ⟨f, rs⟩ := g
    have hx := h (f, rs) (by simp)
    simp only at hx
    simp [findRegex, hx, ih (fun y hy => h y (by simp [hy]))]

theorem any_isSome_eq_firstSome (rs : List UrlRule) (p : List Char) :
    rs.any (fun r => (r.match_ p).isSome) =
      (firstSome (fun r => r.match_ p) rs).isSome := by
  induction rs with
  | nil => rfl
  | cons r t ih =>
    cases hr : r.match_ p with
    | some m => simp [firstSome, hr]
    | none => simp [firstSome, hr, ih]

theorem findRegexCaps_none_iff (t : RuleTable) (p : List Char) :
    findRegexCaps t p = none ↔ findRegex t p = none := by
  induction t with
  | nil => simp [findRegexCaps, findRegex]
  | cons g t2 ih =>
    obtain ⟨f, rs⟩ := g
    simp only [findRegexCaps, findRegex, any_isSome_eq_firstSome]
    cases hm : firstSome (fun r => r.match_ p) rs with
    | some m => simp
    | none => simp [ih]

theorem findRegexCaps_some_findRegex (t : RuleTable) (p : List Char)
    (f : Nat) (m : Caps) (h : findRegexCaps t p = some (f, m)) :
    findRegex t p = some f := by
  induction t with
  | nil => simp [findRegexCaps] at h
  | cons g t2 ih =>
    obtain ⟨f2, rs⟩ := g
    simp only [findRegexCaps] at h
    simp only [findRegex, any_isSome_eq_firstSome]
    cases hm : firstSome (fun r => r.match_ p) rs with
    | some m2 =>
      rw [hm] at h
      have h2 : f2 = f ∧ m2 = m := by
        have := Option.some.inj h
        exact Prod.mk.injEq .. ▸ this
      simp [h2.1]
    | none =>
      rw [hm] at h
      simp [ih h]

/-! ## Claims C1, C2, C3, C5 -/

/-- Claim C1, counterexample to the claim as stated: the route table is a
dictionary keyed by handler, so `route_for` scans rules grouped by handler,
not in flat registration order.  After `add_route(H1, "/x")`,
`add_route(H2, "/a")`, `add_route(H1, "/a")`, the first exact match for
`"/a"` in flat registration order belongs to `H2`, but `route_for` returns
`H1`, whose group is scanned first and also contains an exact match. -/
theorem claim_C1_cex :
    (mkAddon (cl "b") false
      [(1, cl "/x"), (2, cl "/a"), (1, cl "/a")]).route_for (cl "/a") = some 1 ∧
    flatRouteFor (cl "b")
      [(1, cl "/x"), (2, cl "/a"), (1, cl "/a")] (cl "/a") = some 2 ∧
    (some 1 : Option Nat) ≠ some 2 := by
  refine ⟨by decide, by decide, by decide⟩

/-- Claim C1 (amended): `route_for` strips the base prefix and then scans
the route table in dictionary order — handlers in order of their first
registration, each handler's rules in registration order — returning the
handler of the first group containing an exact match; only if no group
contains an exact match does it rescan for the first group containing a
regex match (so an exact match beats a regex match regardless of
registration order), and it returns `None` when neither pass hits.  The
base URL is assumed nonempty (the Python code raises on an empty split
separator). -/
theorem claim_C1 (a : Addon) (path : List Char) (_hb : a.base_url ≠ []) :
    (∀ i, ∀ h : i < a.rules.length,
      (a.rules.get ⟨i, h⟩).2.any
        (fun r => r.exact_match (stripBase a.base_url path)) = true →
      (∀ j, ∀ hjj : j < i,
        (a.rules.get ⟨j, Nat.lt_trans hjj h⟩).2.any
          (fun r => r.exact_match (stripBase a.base_url path)) = false) →
      a.route_for path = some (a.rules.get ⟨i, h⟩).1) ∧
    ((∀ g ∈ a.rules,
        g.2.any (fun r => r.exact_match (stripBase a.base_url path)) = false) →
      ∀ i, ∀ h : i < a.rules.length,
        (a.rules.get ⟨i, h⟩).2.any
          (fun r => (r.match_ (stripBase a.base_url path)).isSome) = true →
        (∀ j, ∀ hjj : j < i,
          (a.rules.get ⟨j, Nat.lt_trans hjj h⟩).2.any
            (fun r => (r.match_ (stripBase a.base_url path)).isSome) = false) →
        a.route_for path = some (a.rules.get ⟨i, h⟩).1) ∧
    ((∀ g ∈ a.rules,
        g.2.any (fun r => r.exact_match (stripBase a.base_url path)) = false ∧
        g.2.any (fun r => (r.match_ (stripBase a.base_url path)).isSome) = false) →
      a.route_for path = none) := by
  refine ⟨?_, ?_, ?_⟩
  · intro i h hi hj
    simp [Addon.route_for, findExact_eq_some a.rules _ i h hi hj]
  · intro hno i h hi hj
    simp [Addon.route_for, findExact_eq_none a.rules _ hno,
      findRegex_eq_some a.rules _ i h hi hj]
  · intro hno
    simp [Addon.route_for,
      findExact_eq_none a.rules _ (fun g hg => (hno g hg).1),
      findRegex_eq_none a.rules _ (fun g hg => (hno g hg).2)]

/-- Claim C1, witness: the amended theorem applied to the table of the
counterexample resolves `"/a"` to handler 1 through its exact pass. -/
theorem claim_C1_witness :
    (mkAddon (cl "b") false
      [(1, cl "/x"), (2, cl "/a"), (1, cl "/a")]).route_for (cl "/a") = some 1 ∧
    (mkAddon (cl "b") false
      [(1, cl "/x"), (2, cl "/a"), (1, cl "/a")]).base_url ≠ [] := by
  refine ⟨?_, by decide⟩
  have h := (claim_C1 (mkAddon (cl "b") false
      [(1, cl "/x"), (2, cl "/a"), (1, cl "/a")]) (cl "/a") (by decide)).1
    0 (by decide) (by decide)
    (fun j hjj => absurd hjj (Nat.not_lt_zero j))
  exact h

/-- Claim C2: the claim is right and the code has a slip.  `_has_args` is
computed with the regex `<([A-z][A-z0-9]*)>`, which does not recognise the
typed placeholder forms, while `_pattern` and `_keywords` are computed with
`<(?:[^:]+:)?([A-z][A-z0-9]*)>`, which does.  Hence the rule for
`"/a/<string:x>"` carries the placeholder `x` yet `exact_match` accepts the
path `"/a/{x}"`, contradicting "no Rule whose pattern contains a placeholder
ever exact-matches any path". -/
theorem claim_C2 :
    (UrlRule.ofPattern (cl "/a/<string:x>")).exact_match (cl "/a/\x7bx\x7d") = true ∧
    (UrlRule.ofPattern (cl "/a/<string:x>"))._keywords = [cl "x"] ∧
    (UrlRule.ofPattern (cl "/a/<string:x>"))._has_args = false := by
  refine ⟨by decide, by decide, by decide⟩

/-- Claim C3, counterexample to the claim as stated: `_dispatch` performs no
base-prefix stripping, so for a path that begins with the base URL it raises
`RoutingError` while `route_for` resolves a handler. -/
theorem claim_C3_cex :
    (mkAddon (cl "plugin://t") false [(1, cl "/f")]).route_for
      (cl "plugin://t/f") = some 1 ∧
    (mkAddon (cl "plugin://t") false [(1, cl "/f")])._dispatch
      (cl "plugin://t/f") = DispatchOutcome.routingError := by
  refine ⟨by decide, by decide⟩

/-- Claim C3 (amended): `_dispatch` runs the same two-pass search as
`route_for` but on the unstripped path.  For a path that does not begin with
the base URL, and with argument coercion disabled, it invokes exactly the
handler `route_for` returns — with no arguments on an exact-pass hit and
with the captured named arguments on a regex-pass hit — and fails with
`RoutingError` exactly when `route_for` returns `None`. -/
theorem claim_C3 (a : Addon) (path : List Char)
    (hpre : a.base_url.isPrefixOf path = false)
    (hconv : a.convert_args = false) :
    (a._dispatch path = DispatchOutcome.routingError ↔ a.route_for path = none) ∧
    (∀ f, findExact a.rules path = some f →
      a._dispatch path = DispatchOutcome.invoked f none ∧ a.route_for path = some f) ∧
    (∀ f m, findExact a.rules path = none →
      findRegexCaps a.rules path = some (f, m) →
      a._dispatch path = DispatchOutcome.invoked f (some (rawKwargs m)) ∧
      a.route_for path = some f) := by
  have hstrip : stripBase a.base_url path = path := by
    simp [stripBase, hpre]
  refine ⟨?_, ?_, ?_⟩
  · cases hfe : findExact a.rules path with
    | some f =>
      simp [Addon.route_for, Addon._dispatch, hstrip, hfe]
    | none =>
      cases hfc : findRegexCaps a.rules path with
      | some fm =>
        obtain ⟨f, m⟩ := fm
        have hfr := findRegexCaps_some_findRegex a.rules path f m hfc
        simp [Addon.route_for, Addon._dispatch, hstrip, hfe, hfc, hconv, hfr]
      | none =>
        have hfr := (findRegexCaps_none_iff a.rules path).mp hfc
        simp [Addon.route_for, Addon._dispatch, hstrip, hfe, hfc, hfr]
  · intro f hfe
    simp [Addon.route_for, Addon._dispatch, hstrip, hfe]
  · intro f m hfe hfc
    have hfr := findRegexCaps_some_findRegex a.rules path f m hfc
    simp [Addon.route_for, Addon._dispatch, hstrip, hfe, hfc, hconv, hfr]

/-- Claim C3, witness: on `"/f"` (no base prefix) the dispatcher and
`route_for` agree, invoking handler 1 with no arguments. -/
theorem claim_C3_witness :
    (mkAddon (cl "plugin://t") false [(1, cl "/f")])._dispatch (cl "/f") =
      DispatchOutcome.invoked 1 none ∧
    (mkAddon (cl "plugin://t") false [(1, cl "/f")]).route_for (cl "/f") = some 1 :=
  (claim_C3 (mkAddon (cl "plugin://t") false [(1, cl "/f")]) (cl "/f")
    (by decide) (by decide)).2.1 1 (by decide)

/-- Claim C5: `url_for` tries `make_path` only on the rules registered for
the handler, in registration order; the first non-`None` result is returned
through `url_for_path` (base URL prefixed); a failed attempt is skipped; if
the handler is unregistered, owns no rule, or every attempt fails, it raises
`RoutingError` carrying the handler and the supplied positional and named
arguments. -/
theorem claim_C5 (a : Addon) (f : Nat) (args : List (List Char)) (kwargs : Caps) :
    (lookupR f a.rules = none →
      a.url_for f args kwargs = Except.error ⟨f, args, kwargs⟩) ∧
    (∀ rs, lookupR f a.rules = some rs →
      ((∀ r ∈ rs, r.make_path args kwargs = none) →
        a.url_for f args kwargs = Except.error ⟨f, args, kwargs⟩) ∧
      (∀ i, ∀ h : i < rs.length, ∀ p,
        (rs.get ⟨i, h⟩).make_path args kwargs = some p →
        (∀ j, ∀ hjj : j < i,
          (rs.get ⟨j, Nat.lt_trans hjj h⟩).make_path args kwargs = none) →
        a.url_for f args kwargs = Except.ok (a.url_for_path p))) := by
  refine ⟨?_, ?_⟩
  · intro h
    simp [Addon.url_for, h]
  · intro rs hrs
    refine ⟨?_, ?_⟩
    · intro hall
      simp [Addon.url_for, hrs,
        firstSome_eq_none (fun r => r.make_path args kwargs) rs hall]
    · intro i h p hp hj
      simp [Addon.url_for, hrs,
        firstSome_eq_some (fun r => r.make_path args kwargs) rs i h p hp hj]

/-- Claim C5, witness: with two rules registered for handler 5, the first
(`"/a/<x>/<y>"`) fails on one positional argument (arity mismatch) and is
skipped, and the second (`"/b/<x>"`) builds the returned path. -/
theorem claim_C5_witness :
    (mkAddon (cl "plugin://py.test") false
      [(5, cl "/a/<x>/<y>"), (5, cl "/b/<x>")]).url_for 5 [cl "v"] [] =
      Except.ok (cl "plugin://py.test/b/v") := by
  have hskip : ∀ j, ∀ hjj : j < 1,
      (([UrlRule.ofPattern (cl "/a/<x>/<y>"),
         UrlRule.ofPattern (cl "/b/<x>")].get
          ⟨j, Nat.lt_trans hjj (by decide)⟩).make_path [cl "v"] []) = none := by
    intro j hjj
    have hj0 : j = 0 := Nat.lt_one_iff.mp hjj
    subst hj0
    show (UrlRule.ofPattern (cl "/a/<x>/<y>")).make_path [cl "v"] [] = none
    decide
  have h := ((claim_C5 (mkAddon (cl "plugin://py.test") false
      [(5, cl "/a/<x>/<y>"), (5, cl "/b/<x>")]) 5 [cl "v"] []).2
    [UrlRule.ofPattern (cl "/a/<x>/<y>"), UrlRule.ofPattern (cl "/b/<x>")]
    (by decide)).2 1 (by decide) (cl "/b/v") (by decide) hskip
  simpa using h

/-! ## Claims C9, C10 -/

/-- Claim C9, counterexample to the claim as stated: on the empty string
every character is (vacuously) a decimal digit, so the integer path is
taken, and `int("")` raises `ValueError` instead of returning a parsed
integer. -/
theorem claim_C9_cex :
    try_convert [] = TCRes.crash ∧ ([] : List Char).all Char.isDigit = true := by
  refine ⟨by decide, by decide⟩

/-- Claim C9 (amended): for every nonempty ASCII input string,
`try_convert` follows exactly the four-step algorithm: all decimal digits →
the parsed integer (a leading `-` is not a digit, so it disqualifies this
path); otherwise a successful float parse → the float; otherwise
case-insensitive `"true"`/`"false"` → the boolean; otherwise no conversion
(`None`).  The empty string crashes in `int("")`, and outside ASCII the
source's Unicode-aware `isdigit`/`int`/`float` behave differently (`"٢"`
parses as the integer 2; `"²"` is all-digits yet `int` raises), so the
algorithm is asserted on the ASCII fragment the embedding models. -/
theorem claim_C9 (s : List Char) (hs : s ≠ [])
    (_hascii : ∀ c ∈ s, c.toNat ≤ 127) :
    (s.all Char.isDigit = true →
      try_convert s = TCRes.val (PyVal.int (digitsVal s))) ∧
    (s.all Char.isDigit = false → ∀ f, pyFloat s = some f →
      try_convert s = TCRes.val (PyVal.flt f)) ∧
    (s.all Char.isDigit = false → pyFloat s = none →
      s.map Char.toLower = cl "true" →
      try_convert s = TCRes.val (PyVal.bool true)) ∧
    (s.all Char.isDigit = false → pyFloat s = none →
      s.map Char.toLower = cl "false" →
      try_convert s = TCRes.val (PyVal.bool false)) ∧
    (s.all Char.isDigit = false → pyFloat s = none →
      s.map Char.toLower ≠ cl "true" → s.map Char.toLower ≠ cl "false" →
      try_convert s = TCRes.noconv) := by
  have hne : s.isEmpty = false := by
    cases s with
    | nil => exact absurd rfl hs
    | cons c t => rfl
  refine ⟨?_, ?_, ?_, ?_, ?_⟩
  · intro hd
    simp [try_convert, hd, hne]
  · intro hd f hf
    simp [try_convert, hd, hf]
  · intro hd hf ht
    simp [try_convert, hd, hf, ht]
  · intro hd hf hfa
    have ht : s.map Char.toLower ≠ cl "true" := by
      rw [hfa]; decide
    simp only [try_convert, hd, hf, hfa]
    rw [if_neg (by decide : ¬(false = true)),
      if_neg (by decide : ¬(cl "false" = cl "true")), if_pos trivial]
  · intro hd hf ht hfa
    simp [try_convert, hd, hf, ht, hfa]

/-- Claim C9, witness: the amended theorem at `"12"` yields `Integer(12)`,
and direct evaluation confirms the other three documented examples. -/
theorem claim_C9_witness :
    cl "12" ≠ [] ∧
    try_convert (cl "12") = TCRes.val (PyVal.int 12) ∧
    (∃ f, try_convert (cl "12.5") = TCRes.val (PyVal.flt f)) ∧
    try_convert (cl "true") = TCRes.val (PyVal.bool true) ∧
    try_convert (cl "abc") = TCRes.noconv := by
  refine ⟨by decide, ?_, ⟨_, rfl⟩, by decide, by decide⟩
  have h := (claim_C9 (cl "12") (by decide) (by decide)).1 (by decide)
  exact h

/-- The conversion loop of `_dispatch` succeeds exactly by replacing each
capture with its converted value when that value is truthy and keeping the
original capture string otherwise. -/
theorem convertKwargs_ok (m : Caps) (args : List (List Char × AVal))
    (h : convertKwargs m = Except.ok args) :
    List.Forall₂ (fun (kv : List Char × List Char) (ka : List Char × AVal) =>
      ka.1 = kv.1 ∧
      ka.2 = (match try_convert kv.2 with
              | TCRes.val x => if truthy x then AVal.v x else AVal.s kv.2
              | _ => AVal.s kv.2)) m args := by
  induction m generalizing args with
  | nil =>
    simp only [convertKwargs] at h
    cases h
    exact List.Forall₂.nil
  | cons kv t ih =>
    obtain ⟨k, v⟩ := kv
    simp only [convertKwargs] at h
    cases hcv : convertVal v with
    | error e => rw [hcv] at h; cases h
    | ok a =>
      rw [hcv] at h
      cases hct : convertKwargs t with
      | error e => rw [hct] at h; cases h
      | ok t2 =>
        rw [hct] at h
        cases h
        refine List.Forall₂.cons ⟨rfl, ?_⟩ (ih t2 hct)
        simp only [convertVal] at hcv
        cases htc : try_convert v with
        | crash => rw [htc] at hcv; cases hcv
        | val x => rw [htc] at hcv; exact (Except.ok.inj hcv).symm
        | noconv => rw [htc] at hcv; exact (Except.ok.inj hcv).symm

/-- Claim C10: when argument coercion is enabled and `_dispatch` invokes a
handler with arguments (a regex-pass hit), each captured value is replaced
by its conversion only when the conversion is truthy; a falsy conversion
(`False`, `0`, `0.0`) or no conversion leaves the original capture string in
place. -/
theorem claim_C10 (a : Addon) (p : List Char) (f : Nat)
    (args : List (List Char × AVal)) (hcv : a.convert_args = true)
    (hd : a._dispatch p = DispatchOutcome.invoked f (some args)) :
    ∃ m, findExact a.rules p = none ∧ findRegexCaps a.rules p = some (f, m) ∧
      List.Forall₂ (fun (kv : List Char × List Char) (ka : List Char × AVal) =>
        ka.1 = kv.1 ∧
        ka.2 = (match try_convert kv.2 with
                | TCRes.val x => if truthy x then AVal.v x else AVal.s kv.2
                | _ => AVal.s kv.2)) m args := by
  unfold Addon._dispatch at hd
  cases hfe : findExact a.rules p with
  | some f2 =>
    rw [hfe] at hd
    simp at hd
  | none =>
    rw [hfe] at hd
    cases hfc : findRegexCaps a.rules p with
    | none => rw [hfc] at hd; cases hd
    | some fm =>
      obtain ⟨f2, m⟩ := fm
      rw [hfc, hcv] at hd
      simp only [if_true] at hd
      cases hck : convertKwargs m with
      | error e => rw [hck] at hd; cases hd
      | ok args2 =>
        rw [hck] at hd
        have h2 := DispatchOutcome.invoked.inj hd
        obtain ⟨hf2, hargs⟩ := h2
        subst hf2
        have hargs2 : args2 = args := Option.some.inj hargs
        subst hargs2
        exact ⟨m, rfl, rfl, convertKwargs_ok m args2 hck⟩

/-- Claim C10, witness: with coercion on, dispatching `"/z/false"` against
the rule `"/z/<a>"` captures `a = "false"`, whose conversion `False` is
falsy, so the handler receives the original string `"false"`. -/
theorem claim_C10_witness :
    (mkAddon (cl "t") true [(7, cl "/z/<a>")]).convert_args = true ∧
    (mkAddon (cl "t") true [(7, cl "/z/<a>")])._dispatch (cl "/z/false") =
      DispatchOutcome.invoked 7 (some [(cl "a", AVal.s (cl "false"))]) ∧
    ∃ m, findExact (mkAddon (cl "t") true [(7, cl "/z/<a>")]).rules (cl "/z/false") = none ∧
      findRegexCaps (mkAddon (cl "t") true [(7, cl "/z/<a>")]).rules (cl "/z/false") =
        some (7, m) ∧
      List.Forall₂ (fun (kv : List Char × List Char) (ka : List Char × AVal) =>
        ka.1 = kv.1 ∧
        ka.2 = (match try_convert kv.2 with
                | TCRes.val x => if truthy x then AVal.v x else AVal.s kv.2
                | _ => AVal.s kv.2)) m [(cl "a", AVal.s (cl "false"))] := by
  refine ⟨by decide, by decide, ?_⟩
  exact claim_C10 (mkAddon (cl "t") true [(7, cl "/z/<a>")]) (cl "/z/false") 7
    [(cl "a", AVal.s (cl "false"))] (by decide) (by decide)

/-! ## Reverse-template lemmas (claims C6, C7) -/

